import Mathlib

/-
Verification of the ctypesgen core against its design description.

The repository ships the command-line driver (src/ctypesgen/__main__.py),
the default-options helper (ctypesgen/options.py), the generated-code
preamble (ctypesgen/printer_python/preamble.py) and the test suite.  The
parsing / expression-evaluation / pack-stack / dependency-resolution core is
not among the provided files, so those parts are modelled from the design
description (marked "Modelled from the spec:"); everything else is embedded
directly from the source files.
-/

namespace Ctypesgen

/-! ## Pack stack (PackContext) -/

/-- Modelled from the spec: one frame of the pragma-pack stack, holding a
byte alignment and the optional name given in the push directive.  The
implementation of the pack stack is not among the provided source files. -/
structure PackFrame where
  alignment : Nat
  fname : Option String
deriving DecidableEq

/-- Modelled from the spec: the PackContext is a stack of frames; the head of
the list is the top of the stack. -/
abbrev PackContext := List PackFrame

/-- Modelled from the spec: pragma pack push adds a frame on top. -/
def pcPush (s : PackContext) (align : Nat) (n : Option String) : PackContext :=
  ⟨align, n⟩ :: s

/-- Modelled from the spec: pop without a name removes exactly the top frame. -/
def pcPop (s : PackContext) : PackContext :=
  s.tail

/-- Modelled from the spec: pop(name) removes the named frame and every frame
pushed above it when such a frame exists, and is a no-op otherwise. -/
def pcPopNamed (s : PackContext) (n : String) : PackContext :=
  match s.dropWhile (fun f => !(f.fname == some n)) with
  | [] => s
  | _ :: rest => rest

/-- The alignment currently in effect: the alignment of the top frame, or
none when the stack is empty (default alignment). -/
def pcTop (s : PackContext) : Option Nat :=
  s.head?.map (fun f => f.alignment)

/-! ## Struct closing: packed / aligned attributes -/

/-- The attributes a struct declaration can carry that matter for layout. -/
structure StructAttrs where
  packed : Bool
  aligned : Option Nat
deriving DecidableEq

/-- The layout-relevant outcome recorded for a struct when its closing brace
is parsed. -/
structure StructLayout where
  packAlign : Option Nat
  alignedFloor : Option Nat
deriving DecidableEq

/-- Modelled from the spec: at the closing brace of a struct, its
pack-byte-alignment is snapshotted.  An attribute packed forces it to 1
independently of the ambient pack stack; otherwise the top of the pack stack
applies.  A coexisting aligned(N) attribute is recorded as a separate
alignment-floor requirement on the struct itself. -/
def closeStruct (attrs : StructAttrs) (stack : PackContext) : StructLayout :=
  { packAlign := if attrs.packed then some 1 else pcTop stack
    alignedFloor := attrs.aligned }

/-! ## Dependency and inclusion resolver -/

/-- Modelled from the spec: the inclusion tier assigned to a Description by
the symbol rules (never / if_needed / yes). -/
inductive Tier
  | never
  | if_needed
  | yes
deriving DecidableEq

/-- Modelled from the spec: the part of a Description the resolver looks at:
its name, its tier after the symbol rules have been applied, and the names of
the Descriptions it structurally depends on. -/
structure RDesc where
  name : String
  tier : Tier
  deps : List String
deriving DecidableEq

def isNever (t : Tier) : Bool :=
  match t with
  | .never => true
  | _ => false

def isYes (t : Tier) : Bool :=
  match t with
  | .yes => true
  | _ => false

/-- Modelled from the spec: the names the closure starts from — every
Description whose tier is yes. -/
def closureSeed (reg : List RDesc) : List String :=
  (reg.filter (fun d => isYes d.tier)).map (fun d => d.name)

/-- Whether some Description already included in inc structurally depends on
the name n. -/
def dependedOn (reg : List RDesc) (inc : List String) (n : String) : Bool :=
  reg.any (fun d => inc.contains d.name && d.deps.contains n)

/-- Modelled from the spec: one closure step.  Every Description that is
depended on by an included Description is pulled in, unless its tier is
never: a never-tier dependency is not promoted. -/
def closureStep (reg : List RDesc) (inc : List String) : List String :=
  inc ++ (reg.filter
    (fun d => !(inc.contains d.name) && !(isNever d.tier)
      && dependedOn reg inc d.name)).map (fun d => d.name)

/-- Modelled from the spec: the set of included names, computed by iterating
the closure step (the registry length bounds the number of productive
steps). -/
def resolveInc (reg : List RDesc) : List String :=
  (closureStep reg)^[reg.length] (closureSeed reg)

/-- Modelled from the spec: an included Description that structurally depends
on a never-tier Description is flagged with a DependencyError diagnostic. -/
def hasDependencyError (reg : List RDesc) (d : RDesc) : Bool :=
  d.deps.any (fun n => reg.any (fun e => e.name == n && isNever e.tier))

/-- A reference as handed to the emitter: either the real named Description,
or the safe opaque/untyped fallback. -/
inductive EmitRef
  | real (n : String)
  | fallback
deriving DecidableEq

/-- Modelled from the spec: how the emitter is instructed to render one
structural reference of an included Description — a reference to a never-tier
Description is substituted with the fallback, all others stay. -/
def emitRef (reg : List RDesc) (n : String) : EmitRef :=
  if reg.any (fun e => e.name == n && isNever e.tier) then .fallback else .real n

/-- Modelled from the spec: the emitter view of all references of a
Description. -/
def emitDeps (reg : List RDesc) (d : RDesc) : List EmitRef :=
  d.deps.map (emitRef reg)

/-! ## Pipeline boundary (from src/ctypesgen/`__main__`.py, main) -/

/-- A Description as seen at the pipeline boundary in main: the processor has
set the final included flag; the payload stands for the rest of the record. -/
structure OutDesc where
  included : Bool
  payload : String
deriving DecidableEq

/-- The fatal pipeline-boundary error of the design description.  The driver
raises it as RuntimeError "No target members found.". -/
inductive PipelineError
  | EmptyOutputError
deriving DecidableEq

/-- Embedded from src/ctypesgen/`__main__`.py lines 379-381:
data = [(k, d) for k, d in data.output_order if d.included];
if not data: raise RuntimeError("No target members found."). -/
def finalizeOutput (output_order : List (String × OutDesc)) :
    Except PipelineError (List (String × OutDesc)) :=
  let data := output_order.filter (fun kd => kd.2.included)
  if data.isEmpty then .error .EmptyOutputError else .ok data

/-! ## Expression model: ternary evaluation -/

/-- Modelled from the spec: a constant value of the C expression model.  The
variants exercised by ternary evaluation are integers, booleans, floats and
strings. -/
inductive CValue
  | int (i : Int)
  | boolean (b : Bool)
  | str (s : String)
  | float (q : ℚ)
deriving DecidableEq

/-- Modelled from the spec: C truthiness — zero/empty is false, anything else
is true. -/
def truthy (v : CValue) : Bool :=
  match v with
  | .int i => decide (i ≠ 0)
  | .boolean b => b
  | .str s => decide (s ≠ "")
  | .float q => decide (q ≠ 0)

/-- Modelled from the spec: the expression AST, restricted to the variants a
macro-function body of the shape a?b:c exercises: constants, parameter
identifiers, and the ternary conditional. -/
inductive ExprNode
  | const (v : CValue) (is_literal : Bool)
  | ident (n : String)
  | ternary (c t e : ExprNode)
deriving DecidableEq

/-- Modelled from the spec: lazy partial evaluation.  An unresolved
identifier stays symbolic (none).  The ternary decides its condition by C
truthiness and yields the value of the winning branch unmodified. -/
def evalExpr (x : ExprNode) : Option CValue :=
  match x with
  | .const v _ => some v
  | .ident _ => none
  | .ternary c t e =>
    match evalExpr c with
    | none => none
    | some cv => if truthy cv then evalExpr t else evalExpr e

/-- Modelled from the spec: structural one-pass substitution of actual
arguments for parameter identifiers in a macro body. -/
def substExpr (env : List (String × ExprNode)) (x : ExprNode) : ExprNode :=
  match x with
  | .const v l => .const v l
  | .ident n =>
    match env.find? (fun p => p.1 == n) with
    | some p => p.2
    | none => .ident n
  | .ternary c t e => .ternary (substExpr env c) (substExpr env t) (substExpr env e)

/-- Modelled from the spec: macro-function invocation substitutes the actual
arguments for the parameter identifiers structurally, once. -/
def invokeMacro (params : List String) (body : ExprNode) (args : List ExprNode) :
    ExprNode :=
  substExpr (params.zip args) body

/-- The test macro: #define C(a,b,c) a?b:c. -/
def cMacroParams : List String := ["a", "b", "c"]

/-- Body of the test macro C: a?b:c. -/
def cMacroBody : ExprNode := .ternary (.ident "a") (.ident "b") (.ident "c")

/-! ## Anonymous tag numbering -/

/-- Modelled from the spec: a struct/union/enum definition as encountered by
the parser, either carrying a source tag or anonymous. -/
inductive TagSpec
  | named (t : String)
  | anonymous
deriving DecidableEq

/-- Modelled from the spec: the per-run anonymous-tag counter, threaded
through the encounter sequence.  A named definition keeps its tag; an
anonymous one is assigned anon_(c+1) where c is the number of anonymous
definitions seen so far. -/
def assignTags (es : List TagSpec) (c : Nat) : List String :=
  match es with
  | [] => []
  | .named t :: rest => t :: assignTags rest c
  | .anonymous :: rest => ("anon_" ++ toString (c + 1)) :: assignTags rest (c + 1)

/-- Modelled from the spec: one run starts its anonymous-tag counter at 0. -/
def runTags (es : List TagSpec) : List String :=
  assignTags es 0

/-- The number of anonymous definitions in an encounter sequence. -/
def countAnon (es : List TagSpec) : Nat :=
  match es with
  | [] => 0
  | .named _ :: rest => countAnon rest
  | .anonymous :: rest => countAnon rest + 1

/-- The synthesized tags of the anonymous definitions of a run, in encounter
order. -/
def anonTagsOf (es : List TagSpec) : List String :=
  (es.zip (runTags es)).filterMap
    (fun p => match p.1 with
      | .anonymous => some p.2
      | .named _ => none)

/-! ## Typedef identity over anonymous structs -/

/-- A heap of descriptor objects; an object identity is an index into the
heap, so identity-equality is equality of indices.  Two separately allocated
objects have different identities even with equal payloads. -/
structure Heap where
  objs : List String
deriving DecidableEq

/-- Allocate a fresh descriptor object, returning its identity. -/
def halloc (h : Heap) (payload : String) : Heap × Nat :=
  (⟨h.objs ++ [payload]⟩, h.objs.length)

/-- A typedef destination: either a descriptor object itself or a pointer
chain ending in one. -/
inductive TDest
  | obj (id : Nat)
  | ptr (d : TDest)
deriving DecidableEq

/-- The identity of the descriptor object a destination ultimately refers
to. -/
def baseOf (d : TDest) : Nat :=
  match d with
  | .obj id => id
  | .ptr d => baseOf d

/-- One declarator of a typedef declaration: the introduced name and how many
pointer levels it wraps around the base type. -/
structure Declarator where
  dname : String
  ptrDepth : Nat
deriving DecidableEq

/-- Wrap an object identity in the given number of pointer levels. -/
def mkDest (id : Nat) (depth : Nat) : TDest :=
  match depth with
  | 0 => .obj id
  | n + 1 => .ptr (mkDest id n)

/-- Modelled from the spec: parsing a declaration of the shape
typedef struct { body } N1, *N2, ... ; allocates one descriptor object for
the anonymous struct body and resolves every declarator of the list against
that single object through the tag namespace, so all typedef names share the
identical destination object. -/
def parseTypedefDecl (h : Heap) (body : String) (ds : List Declarator) :
    Heap × List (String × TDest) :=
  let hid := halloc h body
  (hid.1, ds.map (fun d => (d.dname, mkDest hid.2 d.ptrDepth)))

/-! ## UNCHECKED (from ctypesgen/printer_python/preamble.py) -/

/-- A Python attribute value, as far as UNCHECKED inspects it: either a
string or something that is not a string. -/
inductive PyVal
  | str (s : String)
  | nonStr
deriving DecidableEq

/-- A ctypes type object, as far as UNCHECKED inspects it: its optional
`_type_` attribute. -/
structure CTypesType where
  typeAttr : Option PyVal
deriving DecidableEq

/-- ctypes.c_void_p: its `_type_` attribute is the string "P". -/
def c_void_p : CTypesType :=
  ⟨some (.str "P")⟩

/-- The condition tested by UNCHECKED:
hasattr(type, "_type_") and isinstance(type._type_, str) and type._type_ != "P". -/
def hasStrTypeNotP (t : CTypesType) : Bool :=
  match t.typeAttr with
  | some (.str s) => decide (s ≠ "P")
  | _ => false

/-- Embedded from ctypesgen/printer_python/preamble.py lines 32-36:
UNCHECKED returns its argument when the condition holds, else
ctypes.c_void_p. -/
def UNCHECKED (t : CTypesType) : CTypesType :=
  if hasStrTypeNotP t then t else c_void_p

/-! ## Hexadecimal floating-point literals -/

/-- The value of a hexadecimal digit character, none for a non-digit. -/
def hexDigitVal (c : Char) : Option Nat :=
  if '0' ≤ c ∧ c ≤ '9' then some (c.toNat - '0'.toNat)
  else if 'a' ≤ c ∧ c ≤ 'f' then some (c.toNat - 'a'.toNat + 10)
  else if 'A' ≤ c ∧ c ≤ 'F' then some (c.toNat - 'A'.toNat + 10)
  else none

/-- The value of a decimal digit character, none for a non-digit. -/
def decDigitVal (c : Char) : Option Nat :=
  if '0' ≤ c ∧ c ≤ '9' then some (c.toNat - '0'.toNat) else none

/-- Greedily consume digits recognized by f, returning their values and the
unconsumed remainder. -/
def takeDigitsWith (f : Char → Option Nat) (s : List Char) : List Nat × List Char :=
  match s with
  | [] => ([], [])
  | c :: rest =>
    match f c with
    | none => ([], c :: rest)
    | some d =>
      let pr := takeDigitsWith f rest
      (d :: pr.1, pr.2)

/-- The numeric value of a digit list in the given base, most significant
digit first. -/
def digitsVal (base : Nat) (ds : List Nat) : Nat :=
  ds.foldl (fun a d => base * a + d) 0

/-- Modelled from the spec: the exact binary value implied by a hex-float
literal with integral hex digits I, fractional hex digits F and binary
exponent e: the hex digits I++F read as an integer mantissa, scaled by
2^(e - 4*|F|).  This is the precise IEEE-754 binary value of the literal. -/
def hexFloatVal (I F : List Nat) (e : Int) : ℚ :=
  (digitsVal 16 (I ++ F) : ℚ) * (2 : ℚ) ^ (e - 4 * (F.length : ℤ))

/-- A valid literal tail after the exponent digits: empty, or one suffix
letter f/F/l/L which selects the precision class only. -/
def suffixOk (s : List Char) : Bool :=
  match s with
  | [] => true
  | [c] => c = 'f' || c = 'F' || c = 'l' || c = 'L'
  | _ => false

/-- Parse the exponent magnitude (nonempty decimal digits followed by an
optional precision suffix), already knowing the sign. -/
def parseExpMag (sign : Int) (s : List Char) : Option Int :=
  let pr := takeDigitsWith decDigitVal s
  if pr.1.isEmpty then none
  else if suffixOk pr.2 then some (sign * (digitsVal 10 pr.1 : Int)) else none

/-- Parse the exponent after the p, with its optional sign. -/
def parseExpPart (s : List Char) : Option Int :=
  match s with
  | '+' :: r => parseExpMag 1 r
  | '-' :: r => parseExpMag (-1) r
  | r => parseExpMag 1 r

/-- Parse the mandatory p/P exponent part and produce the literal value;
at least one mantissa digit must have been seen. -/
def parsePExp (I F : List Nat) (s : List Char) : Option ℚ :=
  match s with
  | c :: rest =>
    if c = 'p' ∨ c = 'P' then
      if I.isEmpty && F.isEmpty then none
      else (parseExpPart rest).map (fun e => hexFloatVal I F e)
    else none
  | [] => none

/-- Parse the optional fraction (dot followed by hex digits) and then the
exponent part. -/
def parseFracExp (I : List Nat) (s : List Char) : Option ℚ :=
  match s with
  | '.' :: rest =>
    let fpr := takeDigitsWith hexDigitVal rest
    parsePExp I fpr.1 fpr.2
  | _ => parsePExp I [] s

/-- Modelled from the spec: evaluation of a hexadecimal floating-point
literal 0xH.HHHpE (optional sign on the exponent, optional f/l suffix),
yielding its exact binary value as a rational.  The corresponding evaluator
is not among the provided source files. -/
def parseHexFloat (s : List Char) : Option ℚ :=
  match s with
  | '0' :: c :: rest =>
    if c = 'x' ∨ c = 'X' then
      let ipr := takeDigitsWith hexDigitVal rest
      parseFracExp ipr.1 ipr.2
    else none
  | _ => none

/-- The canonical character of a digit value (upper case for 10..15). -/
def digitChar (d : Nat) : Char :=
  if d < 10 then Char.ofNat ('0'.toNat + d) else Char.ofNat ('A'.toNat + (d - 10))

/-- Render a hex-float literal from integral digits, fractional digits, an
exponent sign, exponent digits and an optional precision suffix. -/
def renderHexFloat (I F : List Nat) (pos : Bool) (E : List Nat) (suf : Option Char) :
    List Char :=
  '0' :: 'x' :: (I.map digitChar ++ '.' ::
    (F.map digitChar ++ 'p' :: (if pos then '+' else '-') ::
      (E.map digitChar ++ (match suf with | some c => [c] | none => []))))

/-- The signed exponent denoted by a sign flag and decimal digits. -/
def signedExp (pos : Bool) (E : List Nat) : Int :=
  if pos then (digitsVal 10 E : Int) else -(digitsVal 10 E : Int)

/-! ## Python list-object store (option handling) -/

/-- A store of Python list objects; a reference is an index into the store,
so object identity is index equality.  This embeds the aliasing semantics
that the option-handling code must respect. -/
structure Store where
  objs : List (List String)
deriving DecidableEq

/-- Allocate a fresh list object, returning its reference. -/
def Store.alloc (s : Store) (v : List String) : Store × Nat :=
  (⟨s.objs ++ [v]⟩, s.objs.length)

/-- Read the contents of a list object. -/
def Store.read (s : Store) (r : Nat) : List String :=
  s.objs.getD r []

/-- Overwrite the contents of a list object in place (what a mutation such
as += or extend would do). -/
def Store.write (s : Store) (r : Nat) (v : List String) : Store :=
  ⟨s.objs.set r v⟩

/-- The list-valued fields of the shared default_values table of
ctypesgen/options.py that this development tracks, as references into the
store, plus one scalar field. -/
structure OptNamespace where
  modules : Nat
  include_search_paths : Nat
  compile_libdirs : Nat
  runtime_libdirs : Nat
  inserted_files : Nat
  cpp : String
deriving DecidableEq

/-- Embedded from ctypesgen/options.py lines 50-51: get_default_options
returns argparse.Namespace(**copy.deepcopy(default_values)).  The deep copy
allocates a fresh object for every list-valued field, with contents equal to
the shared default objects, which stay untouched. -/
def get_default_options (s : Store) (dv : OptNamespace) : Store × OptNamespace :=
  let a1 := s.alloc (s.read dv.modules)
  let a2 := a1.1.alloc (s.read dv.include_search_paths)
  let a3 := a2.1.alloc (s.read dv.compile_libdirs)
  let a4 := a3.1.alloc (s.read dv.runtime_libdirs)
  let a5 := a4.1.alloc (s.read dv.inserted_files)
  (a5.1,
   { modules := a1.2
     include_search_paths := a2.2
     compile_libdirs := a3.2
     runtime_libdirs := a4.2
     inserted_files := a5.2
     cpp := dv.cpp })

/-- The argparse namespace fields involved in the libdir post-processing of
the driver, as references into the store.  With no command-line values
given, argparse binds the default list objects themselves. -/
structure ArgsNs where
  compile_libdirs : Nat
  runtime_libdirs : Nat
  universal_libdirs : Nat
deriving DecidableEq

/-- Embedded from src/ctypesgen/`__main__`.py lines 370-372:
args.compile_libdirs = args.compile_libdirs + args.universal_libdirs and
likewise for runtime_libdirs.  The + builds new list objects; the comment in
the source notes that += must not be used because it would mutate the
original (default) object. -/
def postProcessLibdirs (s : Store) (a : ArgsNs) : Store × ArgsNs :=
  let c := s.alloc (s.read a.compile_libdirs ++ s.read a.universal_libdirs)
  let r := c.1.alloc (c.1.read a.runtime_libdirs ++ c.1.read a.universal_libdirs)
  (r.1, { a with compile_libdirs := c.2, runtime_libdirs := r.2 })

/-- Modelled from the spec: the run-scoped state a pipeline run owns —
registry, anonymous-tag counter, pack stack. -/
structure RunState where
  registry : List RDesc
  anonCounter : Nat
  packStack : PackContext
deriving DecidableEq

/-- Modelled from the spec: the state a fresh run starts from. -/
def freshRunState : RunState :=
  ⟨[], 0, []⟩

/-- Modelled from the spec: every run constructs its own fresh run-scoped
state; whatever a previous run left behind is not consulted.  Shown here for
the anonymous-tag numbering of a run. -/
def runPipelineTags (_leftover : RunState) (es : List TagSpec) : List String :=
  assignTags es freshRunState.anonCounter

/-! ## Helper lemmas -/

theorem baseOf_mkDest (id depth : Nat) : baseOf (mkDest id depth) = id := by
  induction depth with
  | zero => rfl
  | succ n ih => simpa [mkDest, baseOf] using ih

theorem dropWhile_all_append (p : PackFrame → Bool) (above : List PackFrame)
    (carrier : PackFrame) (rest : List PackFrame)
    (ha : ∀ f ∈ above, p f = true) (hc : p carrier = false) :
    (above ++ carrier :: rest).dropWhile p = carrier :: rest := by
  induction above with
  | nil => simp [List.dropWhile_cons, hc]
  | cons a t ih =>
    simp only [List.cons_append, List.dropWhile_cons, ha a (by simp)]
    exact ih (fun f hf => ha f (by simp [hf]))

/-! ## C10 -/

/-- C10, counterexample: at the concrete input ctypes.c_void_p the function
returns its argument itself (the returned c_void_p is the argument), yet the
condition "has a string `_type_` different from P" is false — so "returns t
itself if and only if the condition holds" fails at t = c_void_p. -/
theorem C10_counterexample :
    UNCHECKED c_void_p = c_void_p ∧ hasStrTypeNotP c_void_p = false := by
  decide

/-- C10, amended: UNCHECKED t returns t itself iff t has a `_type_` attribute
that is a string different from "P", or t is itself ctypes.c_void_p (the two
branches coincide there); in every other case it returns ctypes.c_void_p. -/
theorem C10_UNCHECKED (t : CTypesType) :
    (UNCHECKED t = t ↔ (hasStrTypeNotP t = true ∨ t = c_void_p)) ∧
    (hasStrTypeNotP t = false → UNCHECKED t = c_void_p) := by
  constructor
  · constructor
    · intro h
      by_cases hc : hasStrTypeNotP t = true
      · exact Or.inl hc
      · right
        simpa [UNCHECKED, hc] using h.symm
    · intro h
      rcases h with h | h
      · simp [UNCHECKED, h]
      · subst h
        decide
  · intro h
    simp [UNCHECKED, h]

/-- C10 witness: the amended theorem applied at a type with no `_type_`
attribute. -/
theorem C10_witness : UNCHECKED ⟨none⟩ = c_void_p :=
  (C10_UNCHECKED ⟨none⟩).2 (by decide)

/-! ## C7 -/

/-- C7: a struct carrying attribute packed gets pack-byte-alignment 1 for
every state of the pragma-pack stack, and a coexisting aligned(N) attribute
is recorded as a separate alignment-floor requirement, without relaxing the
1-byte packing; a non-packed struct instead snapshots the ambient stack (for
example alignment 4 under a pushed 4-byte frame). -/
theorem C7_packed_attribute (al : Option Nat) (stack : PackContext) :
    (closeStruct ⟨true, al⟩ stack).packAlign = some 1 ∧
    (closeStruct ⟨true, al⟩ stack).alignedFloor = al ∧
    closeStruct ⟨false, none⟩ (pcPush [] 4 none) = ⟨some 4, none⟩ ∧
    closeStruct ⟨true, some 8⟩ (pcPush [] 4 none) = ⟨some 1, some 8⟩ := by
  refine ⟨rfl, rfl, rfl, rfl⟩

/-! ## C4 -/

/-- C4: if zero Descriptions end up included, the pipeline terminates with
the fatal EmptyOutputError; otherwise the data handed to the printer is
exactly the output order restricted to the Descriptions with included =
true. -/
theorem C4_empty_output (oo : List (String × OutDesc)) :
    (oo.filter (fun kd => kd.2.included) = [] →
      finalizeOutput oo = .error .EmptyOutputError) ∧
    (oo.filter (fun kd => kd.2.included) ≠ [] →
      finalizeOutput oo = .ok (oo.filter (fun kd => kd.2.included))) := by
  constructor
  · intro h
    simp [finalizeOutput, h]
  · intro h
    simp [finalizeOutput, List.isEmpty_iff, h]

/-- C4 witness: the boundary check applied to a one-element registry with
the element excluded, and to one with it included. -/
theorem C4_witness :
    finalizeOutput [("a", ⟨false, "x"⟩)] = .error .EmptyOutputError ∧
    finalizeOutput [("a", ⟨true, "x"⟩)] = .ok [("a", ⟨true, "x"⟩)] := by
  refine ⟨(C4_empty_output [("a", ⟨false, "x"⟩)]).1 (by decide), ?_⟩
  have h := (C4_empty_output [("a", ⟨true, "x"⟩)]).2 (by decide)
  simpa using h

/-! ## C3 -/

/-- C3: ternary evaluation decides the condition by C truthiness and yields
the winning branch unmodified (never coerced to 0/1); in particular, for the
macro C(a,b,c) defined as a?b:c, C(true,1,2) yields 1 and C(false,99,100)
yields 100. -/
theorem C3_ternary (c t e : ExprNode) (cv : CValue) :
    (evalExpr c = some cv →
      evalExpr (.ternary c t e) = if truthy cv then evalExpr t else evalExpr e) ∧
    evalExpr (invokeMacro cMacroParams cMacroBody
      [.const (.boolean true) true, .const (.int 1) true, .const (.int 2) true])
      = some (.int 1) ∧
    evalExpr (invokeMacro cMacroParams cMacroBody
      [.const (.boolean false) true, .const (.int 99) true, .const (.int 100) true])
      = some (.int 100) := by
  refine ⟨fun h => ?_, by decide, by decide⟩
  simp [evalExpr, h]

/-- C3 witness: the pass-through law applied at a concrete reduced
condition. -/
theorem C3_witness :
    evalExpr (.ternary (.const (.int 5) true) (.const (.int 99) true)
      (.const (.int 100) true))
      = if truthy (.int 5) then evalExpr (.const (.int 99) true)
        else evalExpr (.const (.int 100) true) :=
  (C3_ternary (.const (.int 5) true) (.const (.int 99) true)
    (.const (.int 100) true) (.int 5)).1 (by decide)

/-! ## C5 -/

/-- C5: all typedef names declared over one anonymous struct body resolve to
the identical descriptor object (the same heap identity, not separately
allocated copies), and a pointer declarator's destination chain ends in that
same object; concretely, BAR0 and *PBAR0 share the single freshly allocated
object. -/
theorem C5_typedef_identity (h : Heap) (body : String) (ds : List Declarator)
    (p q : String × TDest)
    (hp : p ∈ (parseTypedefDecl h body ds).2)
    (hq : q ∈ (parseTypedefDecl h body ds).2) :
    baseOf p.2 = baseOf q.2 ∧
    (parseTypedefDecl h body [⟨"BAR0", 0⟩, ⟨"PBAR0", 1⟩]).2
      = [("BAR0", .obj h.objs.length), ("PBAR0", .ptr (.obj h.objs.length))] := by
  constructor
  · simp only [parseTypedefDecl, List.mem_map] at hp hq
    obtain ⟨dp, -, hdp⟩ := hp
    obtain ⟨dq, -, hdq⟩ := hq
    rw [← hdp, ← hdq]
    simp [baseOf_mkDest]
  · rfl

/-- C5 witness: the identity statement applied to the concrete BAR0 / PBAR0
declaration over an empty heap. -/
theorem C5_witness :
    baseOf (TDest.obj 0) = baseOf (TDest.ptr (TDest.obj 0)) :=
  (C5_typedef_identity ⟨[]⟩ "struct body" [⟨"BAR0", 0⟩, ⟨"PBAR0", 1⟩]
    ("BAR0", .obj 0) ("PBAR0", .ptr (.obj 0)) (by decide) (by decide)).1

/-! ## C2 -/

/-- C2: pop(name) on any pack stack is a no-op when no frame carries the
name, and otherwise removes the topmost frame carrying the name together
with every frame pushed above it; in particular after push(A,2), push(B,4),
pop(A) the stack is exactly what preceded the push of A, with the preceding
alignment back in effect, and the full pragma trace of the test suite
(push(thing1,2), push(thing2,4), pop, push(thing3,8), push(thing4,16),
pop(thing3)) leaves the thing1 frame on top so a struct closed there
snapshots the surrounding 2-byte alignment. -/
theorem C2_pack_pop (s rest above : PackContext) (carrier : PackFrame) (n : String) :
    ((∀ f ∈ s, f.fname ≠ some n) → pcPopNamed s n = s) ∧
    (s = above ++ carrier :: rest → (∀ f ∈ above, f.fname ≠ some n) →
      carrier.fname = some n → pcPopNamed s n = rest) ∧
    pcPopNamed (pcPush (pcPush s 2 (some "A")) 4 (some "B")) "A" = s ∧
    pcTop (pcPopNamed (pcPush (pcPush s 2 (some "A")) 4 (some "B")) "A") = pcTop s ∧
    pcPopNamed (pcPush (pcPush (pcPop (pcPush (pcPush s 2 (some "thing1"))
        4 (some "thing2"))) 8 (some "thing3")) 16 (some "thing4")) "thing3"
      = pcPush s 2 (some "thing1") ∧
    (closeStruct ⟨false, none⟩ (pcPush s 2 (some "thing1"))).packAlign = some 2 := by
  have hdrop : ∀ (t : PackContext) (m : String) (ab : PackContext) (ca : PackFrame)
      (re : PackContext), t = ab ++ ca :: re → (∀ f ∈ ab, f.fname ≠ some m) →
      ca.fname = some m → pcPopNamed t m = re := by
    intro t m ab ca re ht ha hc
    subst ht
    have hd := dropWhile_all_append (fun f => !(f.fname == some m)) ab ca re
      (fun f hf => by simp [ha f hf]) (by simp [hc])
    unfold pcPopNamed
    rw [hd]
  have hAB : ∀ t : PackContext,
      pcPopNamed (pcPush (pcPush t 2 (some "A")) 4 (some "B")) "A" = t :=
    fun t => hdrop _ "A" [⟨4, some "B"⟩] ⟨2, some "A"⟩ t rfl (by decide) rfl
  refine ⟨?_, fun hs ha hc => hdrop s n above carrier rest hs ha hc,
    hAB s, by rw [hAB s], ?_, rfl⟩
  · intro h
    have hd : (s.dropWhile (fun f => !(f.fname == some n))) = [] := by
      rw [List.dropWhile_eq_nil_iff]
      intro f hf
      simp [h f hf]
    unfold pcPopNamed
    rw [hd]
  · exact hdrop _ "thing3" [⟨16, some "thing4"⟩] ⟨8, some "thing3"⟩
      (⟨2, some "thing1"⟩ :: s) rfl (by decide) rfl

/-- C2 witness: pop(A) applied to a stack without an A frame (no-op) and to
a stack with frames B above A above C (removes B and A, leaving C). -/
theorem C2_witness :
    pcPopNamed [⟨8, some "C"⟩] "A" = [⟨8, some "C"⟩] ∧
    pcPopNamed [⟨4, some "B"⟩, ⟨2, some "A"⟩, ⟨8, some "C"⟩] "A" = [⟨8, some "C"⟩] :=
  ⟨(C2_pack_pop [⟨8, some "C"⟩] [] [] ⟨0, none⟩ "A").1 (by decide),
   (C2_pack_pop [⟨4, some "B"⟩, ⟨2, some "A"⟩, ⟨8, some "C"⟩] [⟨8, some "C"⟩]
     [⟨4, some "B"⟩] ⟨2, some "A"⟩ "A").2.1 (by decide) (by decide) (by decide)⟩

/-! ## C6 -/

theorem assignTags_anon (es : List TagSpec) (c : Nat) :
    (es.zip (assignTags es c)).filterMap
      (fun p => match p.1 with
        | TagSpec.anonymous => some p.2
        | TagSpec.named _ => none)
    = (List.range (countAnon es)).map (fun k => "anon_" ++ toString (c + k + 1)) := by
  induction es generalizing c with
  | nil => simp [assignTags, countAnon]
  | cons hd tl ih =>
    cases hd with
    | named t =>
      simpa [assignTags, countAnon] using ih c
    | anonymous =>
      simp only [assignTags, countAnon, List.zip_cons_cons, List.filterMap_cons,
        List.range_succ_eq_map, List.map_cons, List.map_map, ih (c + 1)]
      refine congrArg₂ List.cons (by norm_num) ?_
      refine List.map_congr_left ?_
      intro k _
      simp only [Function.comp_apply]
      congr 2
      omega

/-- C6: within one run the k-th anonymous struct/union/enum in encounter
order (k counted from 0) receives the synthetic tag anon_(k+1): numbering
starts at 1 and is strictly increasing with encounter order, and since the
assignment is a pure function of the encounter sequence starting from the
fresh per-run counter, repeated runs on identical input number
identically. -/
theorem C6_anon_numbering (es : List TagSpec) (s1 s2 : RunState) :
    anonTagsOf es
      = (List.range (countAnon es)).map (fun k => "anon_" ++ toString (k + 1)) ∧
    runPipelineTags s1 es = runPipelineTags s2 es := by
  refine ⟨?_, rfl⟩
  have h := assignTags_anon es 0
  simpa [anonTagsOf, runTags] using h

/-! ## C1 -/

theorem mem_closureStep_of_mem (reg : List RDesc) (inc : List String) (x : String)
    (h : x ∈ inc) : x ∈ closureStep reg inc := by
  simp only [closureStep, List.mem_append]
  exact Or.inl h

theorem mem_iterate_closureStep (reg : List RDesc) (k : Nat) (inc : List String)
    (x : String) (h : x ∈ inc) : x ∈ (closureStep reg)^[k] inc := by
  induction k generalizing inc with
  | zero => simpa using h
  | succ m ih =>
    rw [Function.iterate_succ_apply]
    exact ih _ (mem_closureStep_of_mem reg inc x h)

theorem resolveInc_not_never (reg : List RDesc) (x : String)
    (hx : x ∈ resolveInc reg) :
    ∃ d ∈ reg, d.name = x ∧ isNever d.tier = false := by
  suffices h : ∀ (k : Nat) (inc : List String),
      (∀ y ∈ inc, ∃ d ∈ reg, d.name = y ∧ isNever d.tier = false) →
      ∀ y ∈ (closureStep reg)^[k] inc,
        ∃ d ∈ reg, d.name = y ∧ isNever d.tier = false by
    refine h reg.length (closureSeed reg) ?_ x hx
    intro y hy
    simp only [closureSeed, List.mem_map, List.mem_filter] at hy
    obtain ⟨d, ⟨hd, hyes⟩, hname⟩ := hy
    refine ⟨d, hd, hname, ?_⟩
    cases htier : d.tier <;> simp_all [isYes, isNever]
  intro k
  induction k with
  | zero =>
    intro inc h y hy
    exact h y (by simpa using hy)
  | succ m ih =>
    intro inc h y hy
    rw [Function.iterate_succ_apply] at hy
    refine ih _ ?_ y hy
    intro z hz
    simp only [closureStep, List.mem_append, List.mem_map, List.mem_filter] at hz
    rcases hz with hz | ⟨d, ⟨hd, hcond⟩, hname⟩
    · exact h z hz
    · refine ⟨d, hd, hname, ?_⟩
      simp only [Bool.and_eq_true, Bool.not_eq_true'] at hcond
      exact hcond.1.2

/-- C1: during dependency closure a never-tier Description is never promoted
to included, even when an included yes-tier Description structurally depends
on it; the yes-tier dependent itself stays included and is flagged with a
DependencyError diagnostic, and that one reference is handed to the emitter
as the opaque/untyped fallback, while an if_needed-tier dependency of a
yes-tier Description is promoted to included. -/
theorem C1_never_not_promoted (reg : List RDesc) (d f : RDesc) (n : String)
    (hd : d ∈ reg) (hdy : d.tier = Tier.yes) :
    ((∀ g ∈ reg, g.name = n → g.tier = Tier.never) → n ∉ resolveInc reg) ∧
    d.name ∈ resolveInc reg ∧
    (∀ e ∈ reg, e.name ∈ d.deps → e.tier = Tier.if_needed →
      e.name ∈ resolveInc reg) ∧
    (n ∈ d.deps → f ∈ reg → f.name = n → f.tier = Tier.never →
      hasDependencyError reg d = true ∧ emitRef reg n = EmitRef.fallback) := by
  have hseed : d.name ∈ closureSeed reg := by
    simp only [closureSeed, List.mem_map, List.mem_filter]
    exact ⟨d, ⟨hd, by simp [isYes, hdy]⟩, rfl⟩
  refine ⟨?_, ?_, ?_, ?_⟩
  · intro hall hmem
    obtain ⟨g, hg, hgname, hgnever⟩ := resolveInc_not_never reg n hmem
    have := hall g hg hgname
    simp [isNever, this] at hgnever
  · exact mem_iterate_closureStep reg reg.length _ _ hseed
  · intro e he hdep het
    obtain ⟨m, hm⟩ : ∃ m, reg.length = m + 1 := by
      cases hreg : reg with
      | nil => subst hreg; simp at hd
      | cons a t => exact ⟨t.length, by simp⟩
    have hstep : e.name ∈ closureStep reg (closureSeed reg) := by
      by_cases hmem : e.name ∈ closureSeed reg
      · exact mem_closureStep_of_mem _ _ _ hmem
      · simp only [closureStep, List.mem_append, List.mem_map, List.mem_filter]
        refine Or.inr ⟨e, ⟨he, ?_⟩, rfl⟩
        simp only [Bool.and_eq_true, Bool.not_eq_true']
        refine ⟨⟨?_, by simp [isNever, het]⟩, ?_⟩
        · simpa [List.contains] using hmem
        · simp only [dependedOn, List.any_eq_true]
          refine ⟨d, hd, ?_⟩
          simp only [Bool.and_eq_true]
          constructor
          · simpa [List.contains] using hseed
          · simpa [List.contains] using hdep
    rw [resolveInc, hm, Function.iterate_succ_apply]
    exact mem_iterate_closureStep reg m _ _ hstep
  · intro hdep hf hfname hft
    constructor
    · simp only [hasDependencyError, List.any_eq_true]
      refine ⟨n, hdep, ⟨f, hf, ?_⟩⟩
      simp [hfname, isNever, hft]
    · simp only [emitRef]
      rw [if_pos]
      simp only [List.any_eq_true]
      exact ⟨f, hf, by simp [hfname, isNever, hft]⟩

/-- C1 witness: the closure applied to the math-test registry with rules
never=NAN and if_needed=double-underscore: the yes-tier function stays
included, the if_needed dependency is promoted, NAN is not, the dependent is
flagged, and the NAN reference becomes the fallback. -/
theorem C1_witness :
    "sin_plus_y" ∈ resolveInc
      [⟨"sin_plus_y", .yes, ["NAN", "__x"]⟩, ⟨"NAN", .never, []⟩,
        ⟨"__x", .if_needed, []⟩] ∧
    "__x" ∈ resolveInc
      [⟨"sin_plus_y", .yes, ["NAN", "__x"]⟩, ⟨"NAN", .never, []⟩,
        ⟨"__x", .if_needed, []⟩] ∧
    "NAN" ∉ resolveInc
      [⟨"sin_plus_y", .yes, ["NAN", "__x"]⟩, ⟨"NAN", .never, []⟩,
        ⟨"__x", .if_needed, []⟩] ∧
    hasDependencyError
      [⟨"sin_plus_y", .yes, ["NAN", "__x"]⟩, ⟨"NAN", .never, []⟩,
        ⟨"__x", .if_needed, []⟩] ⟨"sin_plus_y", .yes, ["NAN", "__x"]⟩ = true ∧
    emitRef
      [⟨"sin_plus_y", .yes, ["NAN", "__x"]⟩, ⟨"NAN", .never, []⟩,
        ⟨"__x", .if_needed, []⟩] "NAN" = EmitRef.fallback := by
  have h := C1_never_not_promoted
    [⟨"sin_plus_y", .yes, ["NAN", "__x"]⟩, ⟨"NAN", .never, []⟩,
      ⟨"__x", .if_needed, []⟩]
    ⟨"sin_plus_y", .yes, ["NAN", "__x"]⟩ ⟨"NAN", .never, []⟩ "NAN"
    (by decide) (by decide)
  refine ⟨h.2.1, ?_, h.1 (by decide), ?_, ?_⟩
  · exact h.2.2.1 ⟨"__x", .if_needed, []⟩ (by decide) (by decide) (by decide)
  · exact (h.2.2.2 (by decide) (by decide) (by decide) (by decide)).1
  · exact (h.2.2.2 (by decide) (by decide) (by decide) (by decide)).2

/-! ## C9 -/

theorem getD_append_add (l ext : List (List String)) (k : Nat) :
    (l ++ ext).getD (l.length + k) [] = ext.getD k [] := by
  rw [List.getD_append_right]
  · congr 1
    omega
  · omega

theorem Store.read_of_lt (s : Store) (ext : List (List String)) (r : Nat)
    (h : r < s.objs.length) :
    (List.getD (s.objs ++ ext) r []) = s.read r := by
  simp only [Store.read]
  exact List.getD_append _ _ _ _ h

theorem Store.read_write_ne (s : Store) (i j : Nat) (v : List String)
    (h : i ≠ j) : (s.write i v).read j = s.read j := by
  simp [Store.write, Store.read, List.getD, List.getElem?_set_ne h]

theorem postProcess_spec (s : Store) (a : ArgsNs)
    (hr : a.runtime_libdirs < s.objs.length)
    (hu : a.universal_libdirs < s.objs.length) :
    (postProcessLibdirs s a).1.objs
      = s.objs ++ [s.read a.compile_libdirs ++ s.read a.universal_libdirs,
          s.read a.runtime_libdirs ++ s.read a.universal_libdirs] ∧
    (postProcessLibdirs s a).2.compile_libdirs = s.objs.length ∧
    (postProcessLibdirs s a).2.runtime_libdirs = s.objs.length + 1 ∧
    (postProcessLibdirs s a).2.universal_libdirs = a.universal_libdirs := by
  have h1 : (s.alloc (s.read a.compile_libdirs ++ s.read a.universal_libdirs)).1.read
      a.runtime_libdirs = s.read a.runtime_libdirs := by
    simp only [Store.alloc, Store.read]
    exact List.getD_append _ _ _ _ hr
  have h2 : (s.alloc (s.read a.compile_libdirs ++ s.read a.universal_libdirs)).1.read
      a.universal_libdirs = s.read a.universal_libdirs := by
    simp only [Store.alloc, Store.read]
    exact List.getD_append _ _ _ _ hu
  refine ⟨?_, rfl, by simp [postProcessLibdirs, Store.alloc], rfl⟩
  simp only [postProcessLibdirs]
  rw [h1, h2]
  simp [Store.alloc]

theorem postProcess_reads (s : Store) (a : ArgsNs)
    (_hc : a.compile_libdirs < s.objs.length)
    (hr : a.runtime_libdirs < s.objs.length)
    (hu : a.universal_libdirs < s.objs.length) :
    (∀ r, r < s.objs.length → (postProcessLibdirs s a).1.read r = s.read r) ∧
    (postProcessLibdirs s a).1.read (postProcessLibdirs s a).2.compile_libdirs
      = s.read a.compile_libdirs ++ s.read a.universal_libdirs ∧
    (postProcessLibdirs s a).1.read (postProcessLibdirs s a).2.runtime_libdirs
      = s.read a.runtime_libdirs ++ s.read a.universal_libdirs ∧
    s.objs.length ≤ (postProcessLibdirs s a).1.objs.length := by
  obtain ⟨hobjs, hcomp, hrun, -⟩ := postProcess_spec s a hr hu
  refine ⟨?_, ?_, ?_, ?_⟩
  · intro r hlt
    simp only [Store.read, hobjs]
    exact Store.read_of_lt s _ r hlt
  · simp only [Store.read, hobjs, hcomp]
    exact getD_append_add s.objs _ 0
  · simp only [Store.read, hobjs, hrun]
    exact getD_append_add s.objs _ 1
  · simp [hobjs]

theorem gdo_spec (s : Store) (dv : OptNamespace) :
    (get_default_options s dv).1.objs
      = s.objs ++ [s.read dv.modules, s.read dv.include_search_paths,
          s.read dv.compile_libdirs, s.read dv.runtime_libdirs,
          s.read dv.inserted_files] ∧
    (get_default_options s dv).2.compile_libdirs = s.objs.length + 2 := by
  constructor
  · simp [get_default_options, Store.alloc]
  · simp [get_default_options, Store.alloc]

theorem gdo_reads (s : Store) (dv : OptNamespace) :
    (∀ r, r < s.objs.length → (get_default_options s dv).1.read r = s.read r) ∧
    (get_default_options s dv).1.read (get_default_options s dv).2.compile_libdirs
      = s.read dv.compile_libdirs := by
  obtain ⟨hobjs, hcomp⟩ := gdo_spec s dv
  constructor
  · intro r hlt
    simp only [Store.read, hobjs]
    exact Store.read_of_lt s _ r hlt
  · simp only [Store.read, hobjs, hcomp]
    exact getD_append_add s.objs _ 2

/-- C9: sequential runs in one process observe no state from a prior run:
the libdir post-processing of the driver allocates new list objects and
leaves every pre-existing object (in particular the argparse default list
objects) untouched, so a second run over the same defaults computes the same
contents; get_default_options hands out a fresh deep copy whose contents
equal the shared defaults, to which writing does not alter the defaults; and
every pipeline run starts from the fresh run-scoped state regardless of
leftovers. -/
theorem C9_no_state_leak (s : Store) (a : ArgsNs) (dv : OptNamespace)
    (v : List String)
    (hc : a.compile_libdirs < s.objs.length)
    (hr : a.runtime_libdirs < s.objs.length)
    (hu : a.universal_libdirs < s.objs.length)
    (hm : dv.compile_libdirs < s.objs.length) :
    (∀ r, r < s.objs.length → (postProcessLibdirs s a).1.read r = s.read r) ∧
    (postProcessLibdirs s a).1.read (postProcessLibdirs s a).2.compile_libdirs
      = s.read a.compile_libdirs ++ s.read a.universal_libdirs ∧
    ((postProcessLibdirs (postProcessLibdirs s a).1 a).1.read
        (postProcessLibdirs (postProcessLibdirs s a).1 a).2.compile_libdirs
      = (postProcessLibdirs s a).1.read
          (postProcessLibdirs s a).2.compile_libdirs) ∧
    ((postProcessLibdirs (postProcessLibdirs s a).1 a).1.read
        (postProcessLibdirs (postProcessLibdirs s a).1 a).2.runtime_libdirs
      = (postProcessLibdirs s a).1.read
          (postProcessLibdirs s a).2.runtime_libdirs) ∧
    s.objs.length ≤ (get_default_options s dv).2.compile_libdirs ∧
    (get_default_options s dv).1.read (get_default_options s dv).2.compile_libdirs
      = s.read dv.compile_libdirs ∧
    (∀ r, r < s.objs.length → (get_default_options s dv).1.read r = s.read r) ∧
    ((get_default_options s dv).1.write
        (get_default_options s dv).2.compile_libdirs v).read dv.compile_libdirs
      = s.read dv.compile_libdirs ∧
    (∀ (l1 l2 : RunState) (es : List TagSpec),
      runPipelineTags l1 es = runPipelineTags l2 es) := by
  obtain ⟨hpres, hcomp, hrun, hlen⟩ := postProcess_reads s a hc hr hu
  have hlt2 : a.compile_libdirs < (postProcessLibdirs s a).1.objs.length :=
    lt_of_lt_of_le hc hlen
  have hrt2 : a.runtime_libdirs < (postProcessLibdirs s a).1.objs.length :=
    lt_of_lt_of_le hr hlen
  have hut2 : a.universal_libdirs < (postProcessLibdirs s a).1.objs.length :=
    lt_of_lt_of_le hu hlen
  obtain ⟨hpres2, hcomp2, hrun2, -⟩ :=
    postProcess_reads (postProcessLibdirs s a).1 a hlt2 hrt2 hut2
  obtain ⟨hgpres, hgread⟩ := gdo_reads s dv
  obtain ⟨-, hgidx⟩ := gdo_spec s dv
  refine ⟨hpres, hcomp, ?_, ?_, ?_, hgread, hgpres, ?_, fun _ _ _ => rfl⟩
  · rw [hcomp2, hcomp, hpres a.compile_libdirs hc, hpres a.universal_libdirs hu]
  · rw [hrun2, hrun, hpres a.runtime_libdirs hr, hpres a.universal_libdirs hu]
  · rw [hgidx]
    omega
  · have hne : (get_default_options s dv).2.compile_libdirs ≠ dv.compile_libdirs := by
      rw [hgidx]
      omega
    exact (Store.read_write_ne _ _ _ v hne).trans (hgpres dv.compile_libdirs hm)

/-- C9 witness: the no-leak statement applied to a concrete store holding
three default list objects. -/
theorem C9_witness :
    (postProcessLibdirs ⟨[["c0"], ["r0"], ["u0"]]⟩ ⟨0, 1, 2⟩).1.read
        (postProcessLibdirs ⟨[["c0"], ["r0"], ["u0"]]⟩ ⟨0, 1, 2⟩).2.compile_libdirs
      = Store.read ⟨[["c0"], ["r0"], ["u0"]]⟩ 0
          ++ Store.read ⟨[["c0"], ["r0"], ["u0"]]⟩ 2 ∧
    ((get_default_options ⟨[["c0"], ["r0"], ["u0"]]⟩ ⟨0, 1, 2, 0, 1, "gcc -E"⟩).1.write
        (get_default_options ⟨[["c0"], ["r0"], ["u0"]]⟩
          ⟨0, 1, 2, 0, 1, "gcc -E"⟩).2.compile_libdirs ["x"]).read 2
      = Store.read ⟨[["c0"], ["r0"], ["u0"]]⟩ 2 := by
  have h := C9_no_state_leak ⟨[["c0"], ["r0"], ["u0"]]⟩ ⟨0, 1, 2⟩
    ⟨0, 1, 2, 0, 1, "gcc -E"⟩ ["x"] (by decide) (by decide) (by decide) (by decide)
  exact ⟨h.2.1, h.2.2.2.2.2.2.2.1⟩

/-! ## C8 -/

theorem hexDigitVal_digitChar : ∀ d : Nat, d < 16 →
    hexDigitVal (digitChar d) = some d := by
  decide

theorem decDigitVal_digitChar : ∀ d : Nat, d < 10 →
    decDigitVal (digitChar d) = some d := by
  decide

theorem takeDigitsWith_exact (f : Char → Option Nat) (g : Nat → Char)
    (ds : List Nat) (rest : List Char)
    (hds : ∀ d ∈ ds, f (g d) = some d)
    (hrest : ∀ c, rest.head? = some c → f c = none) :
    takeDigitsWith f (ds.map g ++ rest) = (ds, rest) := by
  induction ds with
  | nil =>
    cases rest with
    | nil => rfl
    | cons c r =>
      simp only [List.map_nil, List.nil_append, takeDigitsWith, hrest c rfl]
  | cons d tl ih =>
    have h1 : f (g d) = some d := hds d (by simp)
    have h2 := ih (fun x hx => hds x (by simp [hx]))
    simp only [List.map_cons, List.cons_append, takeDigitsWith, h1]
    simp [List.append_eq, h2]

theorem parseExpMag_render (sign : Int) (E : List Nat) (sufL : List Char)
    (hE : ∀ d ∈ E, d < 10) (hEne : E ≠ [])
    (hhead : ∀ c, sufL.head? = some c → decDigitVal c = none)
    (hok : suffixOk sufL = true) :
    parseExpMag sign (E.map digitChar ++ sufL)
      = some (sign * (digitsVal 10 E : Int)) := by
  have ht := takeDigitsWith_exact decDigitVal digitChar E sufL
    (fun d hd => decDigitVal_digitChar d (hE d hd)) hhead
  have hEb : E.isEmpty = false := by
    cases E with
    | nil => exact absurd rfl hEne
    | cons a t => rfl
  simp only [parseExpMag, ht]
  rw [hEb]
  simp [hok]

theorem parseExpPart_render (pos : Bool) (E : List Nat) (sufL : List Char)
    (hE : ∀ d ∈ E, d < 10) (hEne : E ≠ [])
    (hhead : ∀ c, sufL.head? = some c → decDigitVal c = none)
    (hok : suffixOk sufL = true) :
    parseExpPart ((if pos then '+' else '-') :: (E.map digitChar ++ sufL))
      = some (signedExp pos E) := by
  cases pos with
  | false =>
    have hstep : parseExpPart ('-' :: (E.map digitChar ++ sufL))
        = parseExpMag (-1) (E.map digitChar ++ sufL) := rfl
    show parseExpPart ('-' :: (E.map digitChar ++ sufL)) = some (signedExp false E)
    rw [hstep, parseExpMag_render (-1) E sufL hE hEne hhead hok]
    simp [signedExp]
  | true =>
    have hstep : parseExpPart ('+' :: (E.map digitChar ++ sufL))
        = parseExpMag 1 (E.map digitChar ++ sufL) := rfl
    show parseExpPart ('+' :: (E.map digitChar ++ sufL)) = some (signedExp true E)
    rw [hstep, parseExpMag_render 1 E sufL hE hEne hhead hok]
    simp [signedExp]

theorem parseHexFloat_0x (rest : List Char) :
    parseHexFloat ('0' :: 'x' :: rest)
      = parseFracExp (takeDigitsWith hexDigitVal rest).1
          (takeDigitsWith hexDigitVal rest).2 := rfl

theorem parseFracExp_dot (I : List Nat) (rest : List Char) :
    parseFracExp I ('.' :: rest)
      = parsePExp I (takeDigitsWith hexDigitVal rest).1
          (takeDigitsWith hexDigitVal rest).2 := rfl

theorem parsePExp_p (I F : List Nat) (rest : List Char) :
    parsePExp I F ('p' :: rest)
      = if I.isEmpty && F.isEmpty then none
        else (parseExpPart rest).map (fun e => hexFloatVal I F e) := rfl

theorem parseHexFloat_render (I F E : List Nat) (pos : Bool) (suf : Option Char)
    (hI : ∀ d ∈ I, d < 16) (hF : ∀ d ∈ F, d < 16) (hE : ∀ d ∈ E, d < 10)
    (hEne : E ≠ []) (hne : I ≠ [] ∨ F ≠ [])
    (hsuf : suf = none ∨ suf = some 'f' ∨ suf = some 'F' ∨ suf = some 'l'
      ∨ suf = some 'L') :
    parseHexFloat (renderHexFloat I F pos E suf)
      = some (hexFloatVal I F (signedExp pos E)) := by
  have hsufhead : ∀ c,
      (match suf with | some c => [c] | none => ([] : List Char)).head? = some c →
      decDigitVal c = none := by
    intro c hc
    rcases hsuf with h | h | h | h | h <;> subst h <;> simp at hc <;>
      subst hc <;> decide
  have hsufok :
      suffixOk (match suf with | some c => [c] | none => ([] : List Char)) = true := by
    rcases hsuf with h | h | h | h | h <;> subst h <;> decide
  have h2 := takeDigitsWith_exact hexDigitVal digitChar F
    ('p' :: (if pos then '+' else '-') ::
      (E.map digitChar ++ (match suf with | some c => [c] | none => [])))
    (fun d hd => hexDigitVal_digitChar d (hF d hd))
    (by intro c hc; simp at hc; subst hc; decide)
  have h1 := takeDigitsWith_exact hexDigitVal digitChar I
    ('.' :: (F.map digitChar ++ 'p' :: (if pos then '+' else '-') ::
      (E.map digitChar ++ (match suf with | some c => [c] | none => []))))
    (fun d hd => hexDigitVal_digitChar d (hI d hd))
    (by intro c hc; simp at hc; subst hc; decide)
  have hexp := parseExpPart_render pos E
    (match suf with | some c => [c] | none => []) hE hEne hsufhead hsufok
  have hIF : (I.isEmpty && F.isEmpty) = false := by
    rcases hne with h | h
    · have hb : I.isEmpty = false := by
        cases I with
        | nil => exact absurd rfl h
        | cons a t => rfl
      simp [hb]
    · have hb : F.isEmpty = false := by
        cases F with
        | nil => exact absurd rfl h
        | cons a t => rfl
      simp [hb]
  simp only [renderHexFloat]
  rw [parseHexFloat_0x, h1]
  dsimp only
  rw [parseFracExp_dot, h2]
  dsimp only
  rw [parsePExp_p, hIF]
  rw [if_neg Bool.false_ne_true, hexp]
  rfl

set_option maxRecDepth 4000 in
/-- C8: a hexadecimal floating-point literal 0xH.HHHpE (optional exponent
sign, optional f/l suffix selecting precision class only) evaluates to the
exact binary value implied by its mantissa digits and exponent — the hex
digits read as an integer mantissa scaled by 2^(exponent - 4 times the
number of fraction digits); in particular 0x1.FFFFFEp+127 evaluates to
exactly 33554430 times 2^103, the value float.fromhex gives for that
literal. -/
theorem C8_hex_float (I F E : List Nat) (pos : Bool) (suf : Option Char)
    (hI : ∀ d ∈ I, d < 16) (hF : ∀ d ∈ F, d < 16) (hE : ∀ d ∈ E, d < 10)
    (hEne : E ≠ []) (hne : I ≠ [] ∨ F ≠ [])
    (hsuf : suf = none ∨ suf = some 'f' ∨ suf = some 'F' ∨ suf = some 'l'
      ∨ suf = some 'L') :
    parseHexFloat (renderHexFloat I F pos E suf)
      = some (hexFloatVal I F (signedExp pos E)) ∧
    parseHexFloat "0x1.FFFFFEp+127".data
      = some ((33554430 : ℚ) * 2 ^ (103 : ℕ)) := by
  refine ⟨parseHexFloat_render I F E pos suf hI hF hE hEne hne hsuf, ?_⟩
  have h := parseHexFloat_render [1] [15, 15, 15, 15, 15, 14] [1, 2, 7] true none
    (by decide) (by decide) (by decide) (by decide) (by norm_num) (by norm_num)
  have hrender : renderHexFloat [1] [15, 15, 15, 15, 15, 14] true [1, 2, 7] none
      = "0x1.FFFFFEp+127".data := by decide
  rw [hrender] at h
  rw [h]
  congr 1
  rw [hexFloatVal]
  norm_num [digitsVal, signedExp]

/-- C8 witness: the literal evaluation applied to the concrete digits of
0x1.FFFFFEp+127. -/
theorem C8_witness :
    parseHexFloat (renderHexFloat [1] [15, 15, 15, 15, 15, 14] true [1, 2, 7] none)
      = some (hexFloatVal [1] [15, 15, 15, 15, 15, 14]
          (signedExp true [1, 2, 7])) :=
  (C8_hex_float [1] [15, 15, 15, 15, 15, 14] [1, 2, 7] true none
    (by decide) (by decide) (by decide) (by decide) (by norm_num)
    (by norm_num)).1

end Ctypesgen
